import Mathlib

/-!
Verification of the godwoken mem-pool (crates/mem-pool/src/pool.rs).

The development shallowly embeds the algorithms of `MemPool`:
the reorg discard/include walk of `reset_full`, the packaging counts of
`repackage_count`, the next-block timestamp estimation, the transaction
push path with its snapshot/revert discipline, `finalize_withdrawals`,
the stale-entry pruning of `remove_unexecutables`, and the cycles-pool
re-arming at the end of a reset.

Hashes, transactions, withdrawals and opaque state tokens are modelled
as natural numbers; machine integers are modelled as `Nat` (the only
arithmetic that matters here is comparison, saturating subtraction and
right shift, all of which agree with `Nat` semantics in the relevant
ranges).  Fallible store lookups are `Option`-valued; the unbounded
`while` loops of the reorg walk are given explicit fuel, with a
distinguished `outOfFuel` outcome so that termination can be stated.
-/

/-- An L2 block as seen by the reorg walk of `reset_full`: its number, its
own hash, its parent hash, and the identities of its transactions and
withdrawals (withdrawal extras are identified with their requests, which
the source asserts to coincide via `assert_eq!(withdrawal,
withdrawal_extra.request())`). -/
structure Block where
  number : Nat
  hash : Nat
  parentHash : Nat
  txs : List Nat
  withdrawals : List Nat
deriving DecidableEq

/-- Outcome of a fueled ancestor walk: a result, a failed store lookup
(the source panics via `expect("get block")`), or fuel exhaustion (which
the source, having no step cap, can never take: it corresponds to the
walk still running). -/
inductive WalkOut (A : Type) where
  | ok : A → WalkOut A
  | lookupFail : WalkOut A
  | outOfFuel : WalkOut A
deriving DecidableEq

/-- First loop of `reset_full` (pool.rs 633-655): while the discarded side
`rem` is higher than the new side, front-insert its transactions and
withdrawals into the discarded lists and step to its parent.  Returns the
final `rem`, the discarded accumulators, and the ancestor-step count. -/
def walkRem (store : Nat → Option Block) :
    Nat → Block → Nat → List Nat → List Nat → Nat →
    WalkOut (Block × List Nat × List Nat × Nat)
  | 0, _, _, _, _, _ => .outOfFuel
  | fuel + 1, rem, addNum, dT, dW, st =>
    if addNum < rem.number then
      match store rem.parentHash with
      | none => .lookupFail
      | some rem2 =>
        walkRem store fuel rem2 addNum (rem.txs ++ dT) (rem.withdrawals ++ dW) (st + 1)
    else .ok (rem, dT, dW, st)

/-- Second loop of `reset_full` (pool.rs 656-663): while the new side
`add` is higher than the (now fixed) discarded side `rem`, accumulate
included content and step `add` to its parent.  The source extends the
included transactions with `add.transactions()` but the included
withdrawals with `rem.withdrawals()` (pool.rs line 658); the embedding
mirrors that line exactly. -/
def walkAdd (store : Nat → Option Block) :
    Nat → Block → Block → List Nat → List Nat → Nat →
    WalkOut (Block × List Nat × List Nat × Nat)
  | 0, _, _, _, _, _ => .outOfFuel
  | fuel + 1, add, rem, iT, iW, st =>
    if rem.number < add.number then
      match store add.parentHash with
      | none => .lookupFail
      | some add2 =>
        walkAdd store fuel add2 rem (iT ++ add.txs) (iW ++ rem.withdrawals) (st + 1)
    else .ok (add, iT, iW, st)

/-- Third loop of `reset_full` (pool.rs 664-688): while the two sides have
different hashes, push `rem`'s content to the discarded lists, extend the
included sets with `add`'s content, and step both to their parents (two
ancestor steps per iteration). -/
def walkBoth (store : Nat → Option Block) :
    Nat → Block → Block → List Nat → List Nat → List Nat → List Nat → Nat →
    WalkOut (List Nat × List Nat × List Nat × List Nat × Nat)
  | 0, _, _, _, _, _, _, _ => .outOfFuel
  | fuel + 1, rem, add, dT, dW, iT, iW, st =>
    if rem.hash = add.hash then .ok (dT, dW, iT, iW, st)
    else
      match store rem.parentHash with
      | none => .lookupFail
      | some rem2 =>
        match store add.parentHash with
        | none => .lookupFail
        | some add2 =>
          walkBoth store fuel rem2 add2 (rem.txs ++ dT) (rem.withdrawals ++ dW)
            (iT ++ add.txs) (iW ++ add.withdrawals) (st + 2)

/-- The discard-collection of `reset_full` (pool.rs 626-698): run the
three loops in sequence, then drop from the discarded lists everything
that also appears in the included sets (`retain`).  Also reports the
total number of ancestor steps taken. -/
def collectDiscarded (store : Nat → Option Block) (fuel : Nat) (oldTip newTip : Block) :
    WalkOut (List Nat × List Nat × Nat) :=
  match walkRem store fuel oldTip newTip.number [] [] 0 with
  | .outOfFuel => .outOfFuel
  | .lookupFail => .lookupFail
  | .ok (rem, dT, dW, st1) =>
    match walkAdd store fuel newTip rem [] [] st1 with
    | .outOfFuel => .outOfFuel
    | .lookupFail => .lookupFail
    | .ok (add, iT, iW, st2) =>
      match walkBoth store fuel rem add dT dW iT iW st2 with
      | .outOfFuel => .outOfFuel
      | .lookupFail => .lookupFail
      | .ok (dT2, dW2, iT2, iW2, st3) =>
        .ok (dT2.filter (fun t => ¬ iT2.contains t),
             dW2.filter (fun w => ¬ iW2.contains w), st3)

/-- The reorg-handling head of `reset_full` (pool.rs 616-699): reinjection
lists are empty unless an old tip is known and differs from the new tip's
parent; a tip-number difference above 64 skips collection (treated as
empty, with only a log line); otherwise the three-loop walk runs. -/
def resetReinject (store : Nat → Option Block) (fuel : Nat)
    (oldTip : Option Nat) (newTip : Block) : WalkOut (List Nat × List Nat) :=
  match oldTip with
  | none => .ok ([], [])
  | some oldHash =>
    if oldHash = newTip.parentHash then .ok ([], [])
    else
      match store oldHash with
      | none => .lookupFail
      | some oldBlock =>
        let depth := max newTip.number oldBlock.number - min newTip.number oldBlock.number
        if 64 < depth then .ok ([], [])
        else
          match collectDiscarded store fuel oldBlock newTip with
          | .outOfFuel => .outOfFuel
          | .lookupFail => .lookupFail
          | .ok (txs, ws, _) => .ok (txs, ws)

/-- Every stored block's parent lookup, when it succeeds, yields a block
with a strictly smaller number (a well-formed, acyclic chain store). -/
def WfStore (store : Nat → Option Block) : Prop :=
  ∀ h b, store h = some b → ∀ b2, store b.parentHash = some b2 → b2.number < b.number

/-- A block whose own parent lookup, when it succeeds, yields a block
with a strictly smaller number. -/
def GoodBlock (store : Nat → Option Block) (b : Block) : Prop :=
  ∀ b2, store b.parentHash = some b2 → b2.number < b.number

/-- Candidate-block content relevant to packaging: ordered withdrawal
hashes, deposits and transaction hashes (`MemBlock`). -/
structure MemBlockPkg where
  withdrawals : List Nat
  deposits : List Nat
  txs : List Nat
deriving DecidableEq

/-- `repackage_count` (pool.rs 1416-1437): `remain` is the total shifted
right by the retry count, floored at one; items are then taken
withdrawals-first, then deposits, then transactions, with saturating
subtraction of what each stage consumed.  The shift is the primitive
`usize` shift `total.shr(retry_count)` on a 64-bit target, which in a
release build masks the shift amount to its low six bits (`r % 64`); the
embedding follows that release semantics. -/
def repackageCount (mb : MemBlockPkg) (retryCount : Nat) : Nat × Nat × Nat :=
  let total := mb.withdrawals.length + mb.deposits.length + mb.txs.length
  let remain0 := total >>> (retryCount % 64)
  let remain := if remain0 = 0 then 1 else remain0
  let wc := (mb.withdrawals.take remain).length
  let remain1 := remain - wc
  let dc := (mb.deposits.take remain1).length
  let remain2 := remain1 - dc
  let tc := (mb.txs.take remain2).length
  (wc, dc, tc)

/-- Modelled from the spec: `MemBlock::repackage` (crates/mem-pool/src/
mem_block.rs is not under src/) keeps the first `wc` withdrawals, first
`dc` deposits and first `tc` transactions of the candidate block. -/
def MemBlockPkg.repackage (mb : MemBlockPkg) (wc dc tc : Nat) : MemBlockPkg :=
  ⟨mb.withdrawals.take wc, mb.deposits.take dc, mb.txs.take tc⟩

/-- `MemPool::package_mem_block` (pool.rs 527-539): compute the counts
with `repackage_count` and repackage the candidate block with them. -/
def packageMemBlock (mb : MemBlockPkg) (retryCount : Nat) : MemBlockPkg :=
  let c := repackageCount mb retryCount
  mb.repackage c.1 c.2.1 c.2.2

/-- Next-block timestamp estimation in `reset_full` (pool.rs 713-721),
in milliseconds: an estimator value not later than the tip's timestamp,
or an estimator error, falls back to the tip's timestamp plus one second;
any strictly later estimate is used as is. -/
def estimatedTimestamp (estimated : Except Unit Nat) (tipTs : Nat) : Nat :=
  match estimated with
  | .ok e => if e ≤ tipTs then tipTs + 1000 else e
  | .error _ => tipTs + 1000

/-- A layer-2 transaction as the push path sees it: sender id, nonce and
content hash. -/
structure TxM where
  fromId : Nat
  nonce : Nat
  hash : Nat
deriving DecidableEq

/-- Errors surfaced by `push_transaction_with_db` / `execute_tx`. -/
inductive TxErr where
  | duplicate
  | full
  | verification
  | signature
  | allowDenied
  | execution
  | sudtDenied
deriving DecidableEq

/-- External collaborators of the push path (spec section 6): the
transaction verifier and signature check, the contract-creator allow
list, the execution engine (`runTx` returns the possibly mutated state
token together with `some` run result, or `none` on failure), and the
SUDT-proxy-creator whitelist judged on the run result. -/
structure ExecEnv where
  verifyTx : Nat → TxM → Bool
  checkSig : Nat → TxM → Bool
  allowlist : Nat → TxM → Bool
  runTx : Nat → TxM → Nat × Option Nat
  sudtAllow : Nat → Nat → Bool

/-- Mutable pool state touched by the push path: the account-state token,
the candidate block's transaction hashes, and the pending queue (as
admitted (account, tx-hash) pairs). -/
structure PoolSt where
  state : Nat
  memTxs : List Nat
  pending : List (Nat × Nat)
deriving DecidableEq

/-- `MemPool::execute_tx` (pool.rs 1186-1273): allow-list check first
(read only), then a snapshot, then execution; an execution error or a
SUDT-whitelist denial reverts to the snapshot; success finalises the
mutated state.  The returned pair is (resulting state, receipt or
error). -/
def executeTx (env : ExecEnv) (s : Nat) (tx : TxM) : Nat × Except TxErr Nat :=
  if env.allowlist s tx = false then (s, .error .allowDenied)
  else
    let run := env.runTx s tx
    match run.2 with
    | none => (s, .error .execution)
    | some res =>
      if env.sudtAllow res tx.fromId = false then (s, .error .sudtDenied)
      else (run.1, .ok res)

/-- `MemPool::push_transaction_with_db` (pool.rs 317-375): duplicate
check against the candidate block's transaction set, capacity check,
structural verification, signature verification, then execution; only on
success are the transaction hash appended to the candidate block and the
transaction admitted to the pending queue. -/
def pushTransactionWithDb (env : ExecEnv) (maxTxs : Nat) (p : PoolSt) (tx : TxM) :
    PoolSt × Option TxErr :=
  if tx.hash ∈ p.memTxs then (p, some .duplicate)
  else if maxTxs ≤ p.memTxs.length then (p, some .full)
  else if env.verifyTx p.state tx = false then (p, some .verification)
  else if env.checkSig p.state tx = false then (p, some .signature)
  else
    let r := executeTx env p.state tx
    match r.2 with
    | .error e => ({ p with state := r.1 }, some e)
    | .ok _ =>
      ({ state := r.1, memTxs := p.memTxs ++ [tx.hash],
         pending := p.pending ++ [(tx.fromId, tx.hash)] }, none)

/-- A withdrawal request as `finalize_withdrawals` sees it: account,
nonce and content hash. -/
structure WdM where
  acct : Nat
  nonce : Nat
  hash : Nat
deriving DecidableEq

/-- External collaborators of `finalize_withdrawals` (spec section 6):
the signature check, the withdrawal verifier, the capacity-tracking
`include_and_verify` of the withdrawal generator (threading its own
state token), and `apply_withdrawal_request` (returning the possibly
mutated account-state token together with a success flag; on a false
flag the caller reverts to its snapshot). -/
structure WdEnv where
  checkSig : Nat → WdM → Bool
  verifyWd : Nat → WdM → Bool
  includeVerify : Nat → WdM → Option Nat
  applyWd : Nat → WdM → Nat × Bool

/-- State threaded through `finalize_withdrawals`: the account-state
token, the withdrawal generator's capacity-tracker token, and the
candidate block's withdrawal, deposit and transaction lists. -/
structure WdSt where
  state : Nat
  vst : Nat
  blockWds : List Nat
  blockDeps : List Nat
  blockTxs : List Nat
deriving DecidableEq

/-- One iteration of the withdrawal loop of `finalize_withdrawals`
(pool.rs 1089-1170): a failed signature, verifier or capacity check
skips the withdrawal leaving everything unchanged; otherwise a snapshot
is taken and the withdrawal applied — on failure the state reverts to
the snapshot (the capacity tracker keeps its update, as in the source),
on success the withdrawal hash is appended to the candidate block. -/
def finalizeWithdrawalStep (env : WdEnv) (st : WdSt) (w : WdM) : WdSt :=
  if env.checkSig st.state w = false then st
  else if env.verifyWd st.state w = false then st
  else
    match env.includeVerify st.vst w with
    | none => st
    | some v2 =>
      let snap := st.state
      let ap := env.applyWd st.state w
      if ap.2 then
        { st with state := ap.1, vst := v2, blockWds := st.blockWds ++ [w.hash] }
      else
        { st with state := snap, vst := v2 }

/-- `MemPool::finalize_withdrawals` (pool.rs 1062-1182): asserts that the
candidate block's withdrawal, deposit and transaction lists are all
empty (modelled as `none` when violated), then folds the per-withdrawal
step over the list. -/
def finalizeWithdrawals (env : WdEnv) (st : WdSt) (ws : List WdM) : Option WdSt :=
  if st.blockWds = [] ∧ st.blockDeps = [] ∧ st.blockTxs = [] then
    some (ws.foldl (finalizeWithdrawalStep env) st)
  else none

/-- A pending transaction: nonce and hash. -/
structure PTx where
  nonce : Nat
  hash : Nat
deriving DecidableEq

/-- A pending withdrawal: nonce, required CKB capacity and hash. -/
structure PWd where
  nonce : Nat
  required : Nat
  hash : Nat
deriving DecidableEq

/-- Per-account pending backlog (`EntryList`). -/
structure EntryList where
  txs : List PTx
  withdrawals : List PWd
deriving DecidableEq

/-- Modelled from the spec: `EntryList::remove_lower_nonce_txs`
(crates/mem-pool/src/types.rs is not under src/) drops transactions with
nonce below the current nonce; this is the kept remainder. -/
def removeLowerNonceTxsKeep (l : List PTx) (nonce : Nat) : List PTx :=
  l.filter (fun t => decide (nonce ≤ t.nonce))

/-- Modelled from the spec: `EntryList::remove_lower_nonce_withdrawals`
(crates/mem-pool/src/types.rs is not under src/) drops withdrawals with
nonce below the current nonce or requiring more than the current
balance; this is the kept remainder. -/
def removeLowerNonceWithdrawalsKeep (l : List PWd) (nonce balance : Nat) : List PWd :=
  l.filter (fun w => decide (nonce ≤ w.nonce) && decide (w.required ≤ balance))

/-- Read-only account facts consulted by `remove_unexecutables`: current
nonce and current CKB balance per account id. -/
structure AcctState where
  nonceOf : Nat → Nat
  balanceOf : Nat → Nat

/-- `MemPool::remove_unexecutables` (pool.rs 869-913): for every pending
account, prune transactions below the current nonce; when the account
has at least one pending withdrawal, prune withdrawals below the current
nonce or above the current balance; finally delete entries that became
empty. -/
def removeUnexecutables (st : AcctState) (pending : List (Nat × EntryList)) :
    List (Nat × EntryList) :=
  (pending.map (fun e =>
    let n := st.nonceOf e.1
    let txs2 := removeLowerNonceTxsKeep e.2.txs n
    let wds2 :=
      match e.2.withdrawals with
      | [] => ([] : List PWd)
      | _ => removeLowerNonceWithdrawalsKeep e.2.withdrawals n (st.balanceOf e.1)
    (e.1, EntryList.mk txs2 wds2))).filter
    (fun e => !(e.2.txs.isEmpty && e.2.withdrawals.isEmpty))

/-- Modelled from the spec: `CyclesPool` (the CycleBudget of spec section
4.2; gw-generator is not under src/) tracks a cycle limit and the
consumed amount. -/
structure CyclesPool where
  limit : Nat
  used : Nat
deriving DecidableEq

/-- Modelled from the spec: `CyclesPool::new` starts with nothing
consumed. -/
def CyclesPool.new (maxCycles : Nat) : CyclesPool :=
  ⟨maxCycles, 0⟩

/-- Modelled from the spec: `CyclesPool::consume_cycles` adds to the
consumed amount. -/
def CyclesPool.consumeCycles (p : CyclesPool) (n : Nat) : CyclesPool :=
  ⟨p.limit, p.used + n⟩

/-- Modelled from the spec: `CyclesPool::cycles_used` reads the consumed
amount. -/
def CyclesPool.cyclesUsed (p : CyclesPool) : Nat :=
  p.used

/-- The u64 maximum, used for the unrestricted pool active while
re-injecting (pool.rs 786). -/
def u64Max : Nat := 2 ^ 64 - 1

/-- Cycle accounting across `reset_full` (pool.rs 786 and 815-821): an
unrestricted pool is installed before finalize/replay, the given cycle
amounts are consumed during them, and afterwards the pool is re-created
at the configured maximum and pre-charged with the cycles used. -/
def resetCyclesRearm (configMax : Nat) (consumedDuringPrepare : List Nat) : CyclesPool :=
  let during := consumedDuringPrepare.foldl CyclesPool.consumeCycles (CyclesPool.new u64Max)
  (CyclesPool.new configMax).consumeCycles during.cyclesUsed

/-- Concrete store for the reorg scenarios: a genesis block (hash 5), an
old-side block A1 at height 1 carrying withdrawal 77, and a new-side
branch B1-B2-B3 up to height 3, all sharing the genesis parent. -/
def storeC1 : Nat → Option Block := fun h =>
  if h = 5 then some ⟨0, 5, 99, [], []⟩
  else if h = 11 then some ⟨1, 11, 5, [], [77]⟩
  else if h = 21 then some ⟨1, 21, 5, [], []⟩
  else if h = 22 then some ⟨2, 22, 21, [], []⟩
  else if h = 23 then some ⟨3, 23, 22, [], []⟩
  else none

/-- Concrete store for the step-count scenario: two branches of seventy
blocks each (hashes 1001-1070 and 2001-2070) over a common genesis
(hash 5), with equal tip numbers. -/
def deepStore : Nat → Option Block := fun h =>
  if h = 5 then some ⟨0, 5, 999, [], []⟩
  else if 1001 ≤ h ∧ h ≤ 1070 then
    some ⟨h - 1000, h, if h = 1001 then 5 else h - 1, [], []⟩
  else if 2001 ≤ h ∧ h ≤ 2070 then
    some ⟨h - 2000, h, if h = 2001 then 5 else h - 1, [], []⟩
  else none

/-- C2 counterexample: at retry count 64 on a block with N = 5, the
`usize` shift masks its amount (5 >> (64 % 64) = 5), so `repackage_count`
selects all 5 items, not the claimed max(1, 5 >>> 64) = 1. -/
theorem c2_shift_mask_counterexample :
    (repackageCount ⟨[1, 2], [3], [4, 5]⟩ 64).1 +
      (repackageCount ⟨[1, 2], [3], [4, 5]⟩ 64).2.1 +
      (repackageCount ⟨[1, 2], [3], [4, 5]⟩ 64).2.2 = 5 ∧
    max 1 ((5 : Nat) >>> 64) = 1 ∧ (5 : Nat) ≠ 1 := by
  decide

/-- C2 (amended): for every candidate block with positive total item
count N and every retry count r, `repackage_count` selects exactly
max(1, N >>> (r % 64)) items — the `usize` shift masks its amount in a
release build, so for r below 64 this is the claimed max(1, N >>> r) —
a number between 1 and N, allocated withdrawals-first, then deposits,
then transactions. -/
theorem c2_package_count_correct (mb : MemBlockPkg) (r total target : Nat)
    (htot : total = mb.withdrawals.length + mb.deposits.length + mb.txs.length)
    (htar : target = max 1 (total >>> (r % 64)))
    (hpos : 0 < total) :
    (repackageCount mb r).1 = min mb.withdrawals.length target ∧
    (repackageCount mb r).2.1 = min mb.deposits.length (target - (repackageCount mb r).1) ∧
    (repackageCount mb r).2.2 =
      min mb.txs.length (target - (repackageCount mb r).1 - (repackageCount mb r).2.1) ∧
    (repackageCount mb r).1 + (repackageCount mb r).2.1 + (repackageCount mb r).2.2 = target ∧
    1 ≤ target ∧ target ≤ total := by
  subst htot
  obtain ⟨s, hs⟩ :
      ∃ s, (mb.withdrawals.length + mb.deposits.length + mb.txs.length) >>> (r % 64) = s :=
    ⟨_, rfl⟩
  have hshr : s ≤ mb.withdrawals.length + mb.deposits.length + mb.txs.length := by
    rw [← hs, Nat.shiftRight_eq_div_pow]
    exact Nat.div_le_self _ _
  rw [hs] at htar
  have hmax : (if s = 0 then 1 else s) = target := by
    rw [htar]; split <;> omega
  simp only [repackageCount, List.length_take, hs, hmax]
  omega

/-- C10: packaging a candidate block with zero withdrawals, zero
deposits and zero transactions yields zero items of each kind for every
retry count — the max(1, N >>> r) floor never fabricates an item. -/
theorem c10_empty_block_packages_empty (r : Nat) :
    repackageCount ⟨[], [], []⟩ r = (0, 0, 0) ∧
    packageMemBlock ⟨[], [], []⟩ r = ⟨[], [], []⟩ := by
  constructor <;>
    simp [repackageCount, packageMemBlock, MemBlockPkg.repackage, Nat.zero_shiftRight]

/-- C5 counterexample: with tip timestamp 1000 ms, an estimator value of
1001 ms is strictly later than the tip and is used as is, exceeding the
tip by only 1 ms — less than the claimed one-second minimum. -/
theorem c5_min_gap_counterexample :
    estimatedTimestamp (Except.ok 1001) 1000 = 1001 ∧ 1001 < 1000 + 1000 := by
  decide

/-- C5 (amended): the estimated timestamp strictly exceeds the new tip's
timestamp; when the estimator errors or returns a value not later than
the tip's timestamp, the tip's timestamp plus one second is used. -/
theorem c5_timestamp_exceeds_tip (est : Except Unit Nat) (tipTs : Nat) :
    tipTs < estimatedTimestamp est tipTs ∧
    ((est = Except.error () ∨ ∃ e, est = Except.ok e ∧ e ≤ tipTs) →
      estimatedTimestamp est tipTs = tipTs + 1000) := by
  cases est with
  | error u =>
    cases u
    exact ⟨by simp [estimatedTimestamp], fun _ => by simp [estimatedTimestamp]⟩
  | ok e =>
    by_cases h : e ≤ tipTs
    · refine ⟨by simp [estimatedTimestamp, h], fun _ => by simp [estimatedTimestamp, h]⟩
    · refine ⟨by simp [estimatedTimestamp, h]; omega, fun hc => ?_⟩
      rcases hc with hc | ⟨e2, he2, hle⟩
      · exact absurd hc (by simp)
      · cases he2
        exact absurd hle h

/-- C5 witness: with tip timestamp 1000 ms and estimator value 500 ms
(not later than the tip), the fallback of tip plus one second is used
and is strictly later than the tip. -/
theorem c5_timestamp_exceeds_tip_witness :
    1000 < estimatedTimestamp (Except.ok 500) 1000 ∧
    estimatedTimestamp (Except.ok 500) 1000 = 1000 + 1000 :=
  ⟨(c5_timestamp_exceeds_tip (Except.ok 500) 1000).1,
   (c5_timestamp_exceeds_tip (Except.ok 500) 1000).2 (Or.inr ⟨500, rfl, by decide⟩)⟩

lemma foldl_consumeCycles_limit (cs : List Nat) (p : CyclesPool) :
    (cs.foldl CyclesPool.consumeCycles p).limit = p.limit := by
  induction cs generalizing p with
  | nil => rfl
  | cons a t ih => simp [List.foldl, ih, CyclesPool.consumeCycles]

lemma foldl_consumeCycles_used (cs : List Nat) (p : CyclesPool) :
    (cs.foldl CyclesPool.consumeCycles p).used = p.used + cs.sum := by
  induction cs generalizing p with
  | nil => simp
  | cons a t ih =>
    simp [List.foldl, ih, CyclesPool.consumeCycles]
    omega

/-- C8: immediately after the cycle re-arming at the end of a full
reset, the pool's maximum equals the configured maximum and its consumed
amount equals exactly the cycles consumed while finalizing and replaying
content during that reset. -/
theorem c8_cycles_rearmed_after_reset (configMax : Nat) (cs : List Nat) :
    (resetCyclesRearm configMax cs).limit = configMax ∧
    (resetCyclesRearm configMax cs).used = cs.sum := by
  unfold resetCyclesRearm
  constructor
  · rfl
  · simp [CyclesPool.consumeCycles, CyclesPool.cyclesUsed, CyclesPool.new,
      foldl_consumeCycles_used]

/-- C2 witness: a candidate block with two withdrawals, one deposit and
two transactions (N = 5) at retry count 1 packages
min(2, max(1, 5 >>> (1 % 64))) withdrawals, namely both of them. -/
theorem c2_package_count_correct_witness :
    (repackageCount ⟨[1, 2], [3], [4, 5]⟩ 1).1 =
      min (MemBlockPkg.withdrawals ⟨[1, 2], [3], [4, 5]⟩).length (max 1 (5 >>> (1 % 64))) :=
  (c2_package_count_correct ⟨[1, 2], [3], [4, 5]⟩ 1 5 (max 1 (5 >>> (1 % 64)))
    (by decide) rfl (by decide)).1

lemma executeTx_error_state (env : ExecEnv) (s : Nat) (tx : TxM) (e : TxErr)
    (h : (executeTx env s tx).2 = Except.error e) : (executeTx env s tx).1 = s := by
  unfold executeTx at h ⊢
  by_cases h1 : env.allowlist s tx = false
  · simp [h1]
  · simp only [if_neg h1] at h ⊢
    cases h2 : (env.runTx s tx).2 with
    | none => simp [h2]
    | some res =>
      by_cases h3 : env.sudtAllow res tx.fromId = false
      · simp [h2, h3]
      · simp [h2, h3] at h

/-- C6: whenever `push_transaction_with_db` returns an error — duplicate
hash, candidate block at transaction capacity, structural or signature
verification failure, allow-list denial, execution failure, or
SUDT-whitelist denial — the account state, the candidate block and the
pending queue are left exactly as they were: no partial admission. -/
theorem c6_push_transaction_no_partial_admission (env : ExecEnv) (maxTxs : Nat)
    (p : PoolSt) (tx : TxM) (e : TxErr)
    (h : (pushTransactionWithDb env maxTxs p tx).2 = some e) :
    (pushTransactionWithDb env maxTxs p tx).1 = p := by
  by_cases h1 : tx.hash ∈ p.memTxs
  · simp [pushTransactionWithDb, h1]
  · by_cases h2 : maxTxs ≤ p.memTxs.length
    · simp [pushTransactionWithDb, h1, h2]
    · by_cases h3 : env.verifyTx p.state tx = false
      · simp [pushTransactionWithDb, h1, h2, h3]
      · by_cases h4 : env.checkSig p.state tx = false
        · simp [pushTransactionWithDb, h1, h2, h3, h4]
        · cases hE : (executeTx env p.state tx).2 with
          | error e2 =>
            have hs := executeTx_error_state env p.state tx e2 hE
            simp [pushTransactionWithDb, h1, h2, h3, h4, hE, hs]
          | ok res =>
            simp [pushTransactionWithDb, h1, h2, h3, h4, hE] at h

/-- C6 witness: a transaction failing structural verification leaves a
concrete pool state unchanged. -/
theorem c6_push_transaction_no_partial_admission_witness :
    (pushTransactionWithDb
      ⟨fun _ _ => false, fun _ _ => true, fun _ _ => true, fun s _ => (s, none),
        fun _ _ => true⟩
      10 ⟨0, [], []⟩ ⟨1, 0, 42⟩).1 = ⟨0, [], []⟩ :=
  c6_push_transaction_no_partial_admission
    ⟨fun _ _ => false, fun _ _ => true, fun _ _ => true, fun s _ => (s, none),
      fun _ _ => true⟩
    10 ⟨0, [], []⟩ ⟨1, 0, 42⟩ TxErr.verification (by decide)

/-- C7: under the precondition that the candidate block's withdrawal,
deposit and transaction lists are all empty, `finalize_withdrawals`
folds a per-withdrawal step for which: a failed signature, verifier or
capacity check skips the withdrawal without any mutation; a failed state
application reverts the account state to the snapshot taken immediately
before it and appends nothing; and exactly the successfully applied
withdrawals are appended to the candidate block. -/
theorem c7_finalize_withdrawals_skip_revert_append (env : WdEnv) (st : WdSt) (w : WdM)
    (ws : List WdM) :
    ((env.checkSig st.state w = false ∨ env.verifyWd st.state w = false ∨
        env.includeVerify st.vst w = none) →
      finalizeWithdrawalStep env st w = st) ∧
    (∀ v2, env.checkSig st.state w = true → env.verifyWd st.state w = true →
      env.includeVerify st.vst w = some v2 → (env.applyWd st.state w).2 = false →
      finalizeWithdrawalStep env st w = { st with vst := v2 }) ∧
    (∀ v2, env.checkSig st.state w = true → env.verifyWd st.state w = true →
      env.includeVerify st.vst w = some v2 → (env.applyWd st.state w).2 = true →
      finalizeWithdrawalStep env st w =
        { st with
          state := (env.applyWd st.state w).1
          vst := v2
          blockWds := st.blockWds ++ [w.hash] }) ∧
    (st.blockWds = [] → st.blockDeps = [] → st.blockTxs = [] →
      finalizeWithdrawals env st ws = some (ws.foldl (finalizeWithdrawalStep env) st)) := by
  refine ⟨?_, ?_, ?_, ?_⟩
  · intro hfail
    rcases hfail with h1 | h1 | h1
    · simp [finalizeWithdrawalStep, h1]
    · by_cases h0 : env.checkSig st.state w = false
      · simp [finalizeWithdrawalStep, h0]
      · simp [finalizeWithdrawalStep, h0, h1]
    · by_cases h0 : env.checkSig st.state w = false
      · simp [finalizeWithdrawalStep, h0]
      · by_cases h2 : env.verifyWd st.state w = false
        · simp [finalizeWithdrawalStep, h0, h2]
        · simp [finalizeWithdrawalStep, h0, h2, h1]
  · intro v2 h1 h2 h3 h4
    simp [finalizeWithdrawalStep, h1, h2, h3, h4]
  · intro v2 h1 h2 h3 h4
    simp [finalizeWithdrawalStep, h1, h2, h3, h4]
  · intro h1 h2 h3
    simp [finalizeWithdrawals, h1, h2, h3]

/-- C7 witness: with a signature check that always fails, a concrete
withdrawal is skipped without mutating anything, and with the empty
candidate block the precondition lets `finalize_withdrawals` run the
fold. -/
theorem c7_finalize_withdrawals_skip_revert_append_witness :
    finalizeWithdrawalStep
      ⟨fun _ _ => false, fun _ _ => true, fun v _ => some v, fun s _ => (s, true)⟩
      ⟨0, 0, [], [], []⟩ ⟨1, 0, 9⟩ = ⟨0, 0, [], [], []⟩ ∧
    finalizeWithdrawals
      ⟨fun _ _ => false, fun _ _ => true, fun v _ => some v, fun s _ => (s, true)⟩
      ⟨0, 0, [], [], []⟩ [⟨1, 0, 9⟩] =
      some (List.foldl
        (finalizeWithdrawalStep
          ⟨fun _ _ => false, fun _ _ => true, fun v _ => some v, fun s _ => (s, true)⟩)
        ⟨0, 0, [], [], []⟩ [⟨1, 0, 9⟩]) :=
  ⟨(c7_finalize_withdrawals_skip_revert_append
      ⟨fun _ _ => false, fun _ _ => true, fun v _ => some v, fun s _ => (s, true)⟩
      ⟨0, 0, [], [], []⟩ ⟨1, 0, 9⟩ [⟨1, 0, 9⟩]).1 (Or.inl rfl),
   (c7_finalize_withdrawals_skip_revert_append
      ⟨fun _ _ => false, fun _ _ => true, fun v _ => some v, fun s _ => (s, true)⟩
      ⟨0, 0, [], [], []⟩ ⟨1, 0, 9⟩ [⟨1, 0, 9⟩]).2.2.2 rfl rfl rfl⟩

/-- C9: after `remove_unexecutables`, every surviving pending account
entry contains no transaction with nonce below the account's current
nonce and no withdrawal with nonce below the current nonce or requiring
more than the account's current balance, and no surviving entry is
empty. -/
theorem c9_remove_stale_postcondition (st : AcctState) (pending : List (Nat × EntryList))
    (id : Nat) (l : EntryList) (h : (id, l) ∈ removeUnexecutables st pending) :
    (∀ t ∈ l.txs, st.nonceOf id ≤ t.nonce) ∧
    (∀ w ∈ l.withdrawals, st.nonceOf id ≤ w.nonce ∧ w.required ≤ st.balanceOf id) ∧
    ¬(l.txs = [] ∧ l.withdrawals = []) := by
  unfold removeUnexecutables at h
  rw [List.mem_filter] at h
  obtain ⟨hmem, hne⟩ := h
  rw [List.mem_map] at hmem
  obtain ⟨e, hep, heq⟩ := hmem
  obtain ⟨hid, hl⟩ := Prod.mk.injEq .. ▸ heq
  subst hid
  refine ⟨?_, ?_, ?_⟩
  · intro t ht
    rw [← hl] at ht
    simp only [removeLowerNonceTxsKeep, List.mem_filter, decide_eq_true_eq] at ht
    exact ht.2
  · intro w hw
    rw [← hl] at hw
    simp only at hw
    cases hws : e.2.withdrawals with
    | nil => rw [hws] at hw; simp at hw
    | cons w0 ws0 =>
      rw [hws] at hw
      simp only [removeLowerNonceWithdrawalsKeep, List.mem_filter, Bool.and_eq_true,
        decide_eq_true_eq] at hw
      exact hw.2
  · intro hcon
    simp [hcon.1, hcon.2] at hne

/-- C9 witness: a pending entry whose single transaction has nonce 7,
against an account nonce of 5, survives pruning intact and nonempty. -/
theorem c9_remove_stale_postcondition_witness :
    (∀ t ∈ (EntryList.mk [PTx.mk 7 1] []).txs,
      AcctState.nonceOf ⟨fun _ => 5, fun _ => 100⟩ 1 ≤ t.nonce) ∧
    (∀ w ∈ (EntryList.mk [PTx.mk 7 1] []).withdrawals,
      AcctState.nonceOf ⟨fun _ => 5, fun _ => 100⟩ 1 ≤ w.nonce ∧
      w.required ≤ AcctState.balanceOf ⟨fun _ => 5, fun _ => 100⟩ 1) ∧
    ¬((EntryList.mk [PTx.mk 7 1] []).txs = [] ∧
      (EntryList.mk [PTx.mk 7 1] []).withdrawals = []) :=
  c9_remove_stale_postcondition ⟨fun _ => 5, fun _ => 100⟩
    [(1, EntryList.mk [PTx.mk 7 1] [])] 1 (EntryList.mk [PTx.mk 7 1] []) (by decide)

/-- C1: evaluating the reorg walk at a two-block-deep reorg from old tip
A1 (hash 11, height 1, carrying withdrawal 77) to new tip B3 (hash 23,
height 3, branch B1-B2-B3 over the shared genesis): withdrawal 77 sits
in the discarded block and in no new-side block, yet nothing is
re-injected — the loop that advances the new side extends the included
withdrawals with the old side's withdrawals (pool.rs line 658), so 77 is
filtered out of its own re-injection list. -/
theorem c1_reorg_withdrawal_reinject_bug :
    resetReinject storeC1 100 (some 11) ⟨3, 23, 22, [], []⟩ = WalkOut.ok ([], []) ∧
    storeC1 11 = some ⟨1, 11, 5, [], [77]⟩ ∧
    storeC1 21 = some ⟨1, 21, 5, [], []⟩ ∧
    storeC1 22 = some ⟨2, 22, 21, [], []⟩ ∧
    storeC1 23 = some ⟨3, 23, 22, [], []⟩ ∧
    max (3 : Nat) 1 - min 3 1 ≤ 64 := by
  decide

/-- C3: whenever the old tip is known, differs from the new tip's
parent, and the tip-number difference exceeds 64, discard-collection is
skipped entirely: the reset re-injects nothing from discarded blocks and
still completes successfully (no walk, no lookups, no failure). -/
theorem c3_deep_reorg_skips_collection (store : Nat → Option Block) (fuel : Nat)
    (oldHash : Nat) (oldBlock newTip : Block)
    (hlook : store oldHash = some oldBlock)
    (hne : oldHash ≠ newTip.parentHash)
    (hdeep : 64 < max newTip.number oldBlock.number - min newTip.number oldBlock.number) :
    resetReinject store fuel (some oldHash) newTip = WalkOut.ok ([], []) := by
  unfold resetReinject
  simp only [hlook, if_neg hne, if_pos hdeep]

/-- C3 witness: a reorg from a height-100 old tip to a height-0 new tip
(difference 100 > 64) re-injects nothing and completes. -/
theorem c3_deep_reorg_skips_collection_witness :
    resetReinject (fun h => if h = 1 then some ⟨100, 1, 0, [], []⟩ else none) 10
      (some 1) ⟨0, 9, 8, [], []⟩ = WalkOut.ok ([], []) :=
  c3_deep_reorg_skips_collection (fun h => if h = 1 then some ⟨100, 1, 0, [], []⟩ else none)
    10 1 ⟨100, 1, 0, [], []⟩ ⟨0, 9, 8, [], []⟩ rfl (by decide) (by decide)

/-- C4 counterexample: two seventy-block branches with equal tip numbers
(difference 0, well within the 64 cap) make the convergence walk take
140 ancestor steps — more than 64, so no constant step cap bounds the
walk; only the pre-walk tip-number difference is capped. -/
theorem c4_step_bound_counterexample :
    max (70 : Nat) 70 - min 70 70 ≤ 64 ∧
    collectDiscarded deepStore 200 ⟨70, 1070, 1069, [], []⟩ ⟨70, 2070, 2069, [], []⟩ =
      WalkOut.ok ([], [], 140) ∧
    64 < 140 := by
  decide

lemma walkRem_no_fuel_out (store : Nat → Option Block) (hwf : WfStore store) (fuel : Nat) :
    ∀ rem addNum dT dW st, GoodBlock store rem → rem.number < fuel →
      walkRem store fuel rem addNum dT dW st ≠ WalkOut.outOfFuel ∧
      (∀ r dT2 dW2 st2,
        walkRem store fuel rem addNum dT dW st = WalkOut.ok (r, dT2, dW2, st2) →
        r.number ≤ rem.number ∧ GoodBlock store r) := by
  induction fuel with
  | zero =>
    intro rem addNum dT dW st _ hlt
    exact absurd hlt (Nat.not_lt_zero _)
  | succ f ih =>
    intro rem addNum dT dW st hg hlt
    by_cases hc : addNum < rem.number
    · cases hps : store rem.parentHash with
      | none =>
        constructor
        · simp [walkRem, hc, hps]
        · intro r dT2 dW2 st2 hok
          simp [walkRem, hc, hps] at hok
      | some rem2 =>
        have hg2 : GoodBlock store rem2 := fun b2 hb2 => hwf rem.parentHash rem2 hps b2 hb2
        have hn2 : rem2.number < rem.number := hg rem2 hps
        have hih := ih rem2 addNum (rem.txs ++ dT) (rem.withdrawals ++ dW) (st + 1) hg2
          (by omega)
        constructor
        · intro hcontra
          rw [show walkRem store (f + 1) rem addNum dT dW st =
              walkRem store f rem2 addNum (rem.txs ++ dT) (rem.withdrawals ++ dW) (st + 1)
            from by simp [walkRem, hc, hps]] at hcontra
          exact hih.1 hcontra
        · intro r dT2 dW2 st2 hok
          simp only [walkRem, if_pos hc, hps] at hok
          have hp := hih.2 r dT2 dW2 st2 hok
          exact ⟨by omega, hp.2⟩
    · constructor
      · simp [walkRem, hc]
      · intro r dT2 dW2 st2 hok
        simp only [walkRem, if_neg hc, WalkOut.ok.injEq, Prod.mk.injEq] at hok
        obtain ⟨hr, _, _, _⟩ := hok
        subst hr
        exact ⟨Nat.le_refl _, hg⟩

lemma walkAdd_no_fuel_out (store : Nat → Option Block) (hwf : WfStore store) (fuel : Nat) :
    ∀ add rem iT iW st, GoodBlock store add → add.number < fuel →
      walkAdd store fuel add rem iT iW st ≠ WalkOut.outOfFuel := by
  induction fuel with
  | zero =>
    intro add rem iT iW st _ hlt
    exact absurd hlt (Nat.not_lt_zero _)
  | succ f ih =>
    intro add rem iT iW st hg hlt
    by_cases hc : rem.number < add.number
    · cases hps : store add.parentHash with
      | none => simp [walkAdd, hc, hps]
      | some add2 =>
        have hg2 : GoodBlock store add2 := fun b2 hb2 => hwf add.parentHash add2 hps b2 hb2
        have hn2 : add2.number < add.number := hg add2 hps
        have hih := ih add2 rem (iT ++ add.txs) (iW ++ rem.withdrawals) (st + 1) hg2
          (by omega)
        simpa [walkAdd, hc, hps] using hih
    · simp [walkAdd, hc]

lemma walkBoth_no_fuel_out (store : Nat → Option Block) (hwf : WfStore store) (fuel : Nat) :
    ∀ rem add dT dW iT iW st, GoodBlock store rem → rem.number < fuel →
      walkBoth store fuel rem add dT dW iT iW st ≠ WalkOut.outOfFuel := by
  induction fuel with
  | zero =>
    intro rem add dT dW iT iW st _ hlt
    exact absurd hlt (Nat.not_lt_zero _)
  | succ f ih =>
    intro rem add dT dW iT iW st hg hlt
    by_cases hc : rem.hash = add.hash
    · simp [walkBoth, hc]
    · cases hps : store rem.parentHash with
      | none => simp [walkBoth, hc, hps]
      | some rem2 =>
        cases hpa : store add.parentHash with
        | none => simp [walkBoth, hc, hps, hpa]
        | some add2 =>
          have hg2 : GoodBlock store rem2 := fun b2 hb2 => hwf rem.parentHash rem2 hps b2 hb2
          have hn2 : rem2.number < rem.number := hg rem2 hps
          have hih := ih rem2 add2 (rem.txs ++ dT) (rem.withdrawals ++ dW)
            (iT ++ add.txs) (iW ++ add.withdrawals) (st + 2) hg2 (by omega)
          simpa [walkBoth, hc, hps, hpa] using hih

/-- C4 (amended): the 64 cap bounds only the pre-walk tip-number
difference, and the walk has no constant step cap; what does hold is
that on any store whose successful parent lookups strictly decrease
block numbers, the walk terminates for every pair of tips — with fuel
above the sum of the two tip numbers it never exhausts, and a missing
lookup makes it fail closed rather than loop. -/
theorem c4_walk_terminates (store : Nat → Option Block) (fuel : Nat) (oldTip newTip : Block)
    (hwf : WfStore store) (hgo : GoodBlock store oldTip) (hgn : GoodBlock store newTip)
    (hfuel : oldTip.number + newTip.number < fuel) :
    collectDiscarded store fuel oldTip newTip ≠ WalkOut.outOfFuel := by
  have h1 := walkRem_no_fuel_out store hwf fuel oldTip newTip.number [] [] 0 hgo (by omega)
  unfold collectDiscarded
  cases hr : walkRem store fuel oldTip newTip.number [] [] 0 with
  | outOfFuel => exact absurd hr h1.1
  | lookupFail => simp
  | ok a =>
    obtain ⟨rem, dT, dW, st1⟩ := a
    obtain ⟨hrle, hrgood⟩ := h1.2 rem dT dW st1 hr
    have h2 := walkAdd_no_fuel_out store hwf fuel newTip rem [] [] st1 hgn (by omega)
    cases ha : walkAdd store fuel newTip rem [] [] st1 with
    | outOfFuel => exact absurd ha h2
    | lookupFail => simp [ha]
    | ok b =>
      obtain ⟨add, iT, iW, st2⟩ := b
      have h3 := walkBoth_no_fuel_out store hwf fuel rem add dT dW iT iW st2 hrgood
        (by omega)
      cases hb : walkBoth store fuel rem add dT dW iT iW st2 with
      | outOfFuel => exact absurd hb h3
      | lookupFail => simp [ha, hb]
      | ok c => simp [ha, hb]

/-- C4 witness: over the empty store (every lookup misses, so parent
lookups vacuously decrease numbers) and two height-0 tips with equal
hashes, the walk with fuel 1 does not exhaust its fuel. -/
theorem c4_walk_terminates_witness :
    collectDiscarded (fun _ => none) 1 ⟨0, 3, 9, [], []⟩ ⟨0, 3, 9, [], []⟩ ≠
      WalkOut.outOfFuel :=
  c4_walk_terminates (fun _ => none) 1 ⟨0, 3, 9, [], []⟩ ⟨0, 3, 9, [], []⟩
    (fun _ _ hb => Option.noConfusion hb) (fun _ hb2 => Option.noConfusion hb2)
    (fun _ hb2 => Option.noConfusion hb2) (by decide)
